import Mathlib

/-!
Verification of the activepipe repository against its natural-language
specification.

The development shallowly embeds the Python sources:

* `em_bayes.py` — the discrete naive-Bayes classifiers (`BaseDiscreteNB`,
  `MultinomialNB`, `BernoulliNB`) and the semi-supervised EM wrapper
  (`SemisupervisedNB`);
* `activepipe.py` — the active-learning controller (`ActivePipeline`);
* `defaults.py` — the module-level mutable `default_config` dictionary;
* `visualization.py` — the interactive query loops (`instance_bootstrap`).

Floating-point values are modelled as real numbers; integer labels as `Int`
(the sentinel for unlabeled rows is `-1`); Python exceptions as explicit
`PyErr` values threaded through return types.  Functions that mutate the
object they run on are modelled as state transformers returning the new
state.  Definitions are translated from the source; the few definitions
that follow the specification's words instead (for refinement comparisons,
or for repository classes whose defining module is absent from the sources,
such as the `corpus` module) say so in their doc comments.
-/

/-- Python exceptions raised (or documented) by the embedded code.
`shapeError` stands for the `ValueError("X and y have incompatible
shapes.")` raised by `BaseDiscreteNB.fit`; `dimensionError` for the
`ValueError("Expected input with %d features...")` raised by
`BernoulliNB._joint_log_likelihood`; `nameError` for Python's
`UnboundLocalError` (a `NameError`) on reading a never-assigned local;
`indexError` for sequence indexing out of range; `typeError` for the
`TypeError` raised by `SemisupervisedNB.__init__`; `emptyPoolError` is the
error the specification asks for on an exhausted unlabeled pool. -/
inductive PyErr where
  | shapeError
  | dimensionError
  | nameError
  | indexError
  | typeError
  | emptyPoolError
  deriving DecidableEq, Repr

/-- Entry `M[i][j]` of a matrix represented as a list of rows, with the
out-of-range convention `0` used throughout the embedding. -/
def entry (M : List (List ℝ)) (i j : ℕ) : ℝ :=
  (M.getD i []).getD j 0

/-- Sorted distinct labels of `y`: the embedding of `numpy.unique`, which
is what `sklearn.preprocessing.LabelBinarizer` stores in `classes_`. -/
def uniqueSorted (y : List ℤ) : List ℤ :=
  List.insertionSort (fun a b => a ≤ b) y.dedup

/-- One-hot (1-of-K) label matrix over the class list `cls`:
row `i` has a `1` in the column of `y i`'s class and `0` elsewhere.
This embeds `LabelBinarizer.fit_transform` followed by
`BaseDiscreteNB._label_1ofK`'s binary-case padding
`np.concatenate((1 - Y, Y), axis=1)`, which together produce exactly the
standard one-hot matrix whenever `y` carries at least two distinct labels
(the padding reconstructs the complement column).  The degenerate
single-class case of the original `LabelBinarizer` is not modelled;
theorems that depend on the one-hot shape assume two or more classes. -/
def oneHot (cls : List ℤ) (y : List ℤ) : List (List ℝ) :=
  y.map (fun yi => cls.map (fun c => if yi = c then (1 : ℝ) else 0))

/-- Classifier variant: `MultinomialNB`, or `BernoulliNB` with its
`binarize` threshold (`none` embeds Python's `binarize=None`). -/
inductive NBVariant where
  | multinomial
  | bernoulli (binarize : Option ℝ)

/-- Constructor-time hyperparameters shared by the discrete classifiers:
the variant tag, the additive smoothing `alpha` and the `fit_prior` flag. -/
structure NBHyper where
  variant : NBVariant
  alpha : ℝ
  fit_prior : Bool

/-- Fitted state of a discrete naive-Bayes model: the attributes
`_classes`, `class_log_prior_` (= `intercept_`) and `feature_log_prob_`
(= `coef_`) that `fit` installs on the estimator object. -/
structure NBState where
  classes : List ℤ
  class_log_prior : List ℝ
  feature_log_prob : List (List ℝ)

/-- Row-scaling of the label matrix by the optional sample weights:
`Y *= array2d(sample_weight).T` in `BaseDiscreteNB._fit1ofK`. -/
def scaleRows (w : Option (List ℝ)) (Y : List (List ℝ)) : List (List ℝ) :=
  match w with
  | none => Y
  | some ws => List.zipWith (fun wi row => row.map (fun v => wi * v)) ws Y

/-- The matrix each variant's `_count` actually counts: `MultinomialNB`
inherits the base `_count` and uses `X` as is, while `BernoulliNB._count`
first applies `binarize(X, threshold)` (entries strictly above the
threshold become `1`, the rest `0`) unless its threshold is `None`. -/
noncomputable def countX (v : NBVariant) (X : List (List ℝ)) : List (List ℝ) :=
  match v with
  | .multinomial => X
  | .bernoulli none => X
  | .bernoulli (some t) => X.map (fun row => row.map (fun u => if t < u then (1 : ℝ) else 0))

/-- Per-(class, feature) counts `N_c_i = safe_sparse_dot(Y.T, X)` of
`BaseDiscreteNB._count`, written as the defining sums of the matrix
product: entry `(c, j)` is `∑ i, Y[i][c] * X[i][j]`. -/
def countNci (Xc Y : List (List ℝ)) : List (List ℝ) :=
  (List.range ((Y.headD []).length)).map (fun c =>
    (List.range ((Xc.headD []).length)).map (fun j =>
      ((List.range Y.length).map (fun i => entry Y i c * entry Xc i j)).sum))

/-- Per-class totals `N_c = np.sum(N_c_i, axis=1)`. -/
def countNc (Nci : List (List ℝ)) : List ℝ :=
  Nci.map List.sum

/-- Empirical class log-prior `np.log(y_freq) - np.log(y_freq.sum())`
where `y_freq = Y.sum(axis=0)` with `C` columns. -/
noncomputable def empiricalLogPrior (C : ℕ) (Y : List (List ℝ)) : List ℝ :=
  let yfreq := (List.range C).map (fun c => (Y.map (fun row => row.getD c 0)).sum)
  yfreq.map (fun f => Real.log f - Real.log yfreq.sum)

/-- Guts of the fit: `BaseDiscreteNB._fit1ofK(X, Y, sample_weight,
class_prior)`.  Scales `Y` by the sample weights, sets the class log-prior
(supplied prior if given and non-empty, else empirical if `fit_prior`,
else uniform `-log C`), then sets
`feature_log_prob_ = log(N_c_i + alpha) - log(N_c + alpha * X.shape[1])`.
The `assert len(class_prior) == n_classes` of the original is not
modelled (no claim touches a mismatched supplied prior). -/
noncomputable def fit1ofK (hp : NBHyper) (s : NBState) (X Y : List (List ℝ))
    (w : Option (List ℝ)) (cp : Option (List ℝ)) : NBState :=
  let Yw := scaleRows w Y
  let C := (Y.headD []).length
  let clp :=
    match cp with
    | some l => if l ≠ [] then l.map Real.log
                else if hp.fit_prior then empiricalLogPrior C Yw
                else (List.range C).map (fun _ => 0 - Real.log C)
    | none => if hp.fit_prior then empiricalLogPrior C Yw
              else (List.range C).map (fun _ => 0 - Real.log C)
  let F := (X.headD []).length
  let Nci := countNci (countX hp.variant X) Yw
  let Nc := countNc Nci
  { s with
    class_log_prior := clp
    feature_log_prob :=
      List.zipWith (fun row nc => row.map (fun v => Real.log (v + hp.alpha) - Real.log (nc + hp.alpha * F))) Nci Nc }

/-- Label conversion `BaseDiscreteNB._label_1ofK` for a 1-D `y`: it
installs `self._classes = labelbin.classes_` on the model state and
returns the one-hot matrix.  Note that the state mutation happens in
`fit` before any shape validation. -/
def label1ofK (s : NBState) (y : List ℤ) : NBState × List (List ℝ) :=
  ({ s with classes := uniqueSorted y }, oneHot (uniqueSorted y) y)

/-- Embedding of `BaseDiscreteNB.fit(X, y, sample_weight, class_prior)` as
a state transformer.  It first converts labels (mutating `_classes`), then
raises the shape error if `X` and `Y` have different row counts — leaving
the model in its partially mutated state — and otherwise runs
`_fit1ofK`.  The second component is `some e` when the call raised `e`. -/
noncomputable def fitNB (hp : NBHyper) (s : NBState) (X : List (List ℝ)) (y : List ℤ)
    (w : Option (List ℝ)) (cp : Option (List ℝ)) : NBState × Option PyErr :=
  let sY := label1ofK s y
  if X.length ≠ sY.2.length then (sY.1, some PyErr.shapeError)
  else (fit1ofK hp sY.1 X sY.2 w cp, none)

/-- Dot product of two rows, `zipWith`-style (the embedding of a 1-D
`numpy` dot; both operands always have equal length at use sites). -/
def dot (a b : List ℝ) : ℝ :=
  (List.zipWith (fun x y => x * y) a b).sum

/-- Joint log-likelihood of one sample for `MultinomialNB`:
`safe_sparse_dot(X, self.coef_.T) + self.intercept_`, i.e. one entry per
class `c` of `dot x coef[c] + intercept[c]`. -/
noncomputable def jllRowM (s : NBState) (x : List ℝ) : List ℝ :=
  List.zipWith (fun fl c => dot x fl + c) s.feature_log_prob s.class_log_prior

/-- Optional binarization of a sample row, `binarize(X, threshold)`. -/
noncomputable def binarizeRow (th : Option ℝ) (x : List ℝ) : List ℝ :=
  match th with
  | none => x
  | some t => x.map (fun u => if t < u then (1 : ℝ) else 0)

/-- Joint log-likelihood of one sample for `BernoulliNB`: binarizes the
row, raises the dimension error when the feature count differs from the
fitted `feature_log_prob_.shape[1]`, and otherwise scores
`X·coefᵀ + (Σ_j log(1 - exp coef[c][j]) - X·(log(1-exp coef[c]))ᵀ) +
intercept`. -/
noncomputable def jllRowB (s : NBState) (th : Option ℝ) (x : List ℝ) :
    Except PyErr (List ℝ) :=
  let xb := binarizeRow th x
  if xb.length ≠ (s.feature_log_prob.headD []).length then .error .dimensionError
  else .ok (List.zipWith
    (fun fl c =>
      let negp := fl.map (fun v => Real.log (1 - Real.exp v))
      dot xb fl + (negp.sum - dot xb negp) + c)
    s.feature_log_prob s.class_log_prior)

/-- Maximum of a row, `arr.max()` (only used on non-empty rows). -/
noncomputable def rowMax (row : List ℝ) : ℝ :=
  match row with
  | [] => 0
  | a :: t => t.foldr max a

/-- The numerically stable `sklearn.utils.extmath.logsumexp` applied to
one row: `vmax + log(sum(exp(arr - vmax)))` with `vmax` the row maximum. -/
noncomputable def logsumexp (row : List ℝ) : ℝ :=
  rowMax row + Real.log ((row.map (fun v => Real.exp (v - rowMax row))).sum)

/-- Row normalization of `BaseNB.predict_log_proba`:
`jll - np.atleast_2d(logsumexp(jll, axis=1)).T`. -/
noncomputable def normalizeRow (row : List ℝ) : List ℝ :=
  row.map (fun a => a - logsumexp row)

/-- Per-sample `predict_log_proba` of the multinomial classifier. -/
noncomputable def predictLogProbaRowM (s : NBState) (x : List ℝ) : List ℝ :=
  normalizeRow (jllRowM s x)

/-- Per-sample `predict_proba = np.exp(predict_log_proba)` of the
multinomial classifier. -/
noncomputable def predictProbaRowM (s : NBState) (x : List ℝ) : List ℝ :=
  (predictLogProbaRowM s x).map Real.exp

/-- Whole-batch `predict_proba` of the multinomial classifier. -/
noncomputable def predictProbaM (s : NBState) (X : List (List ℝ)) : List (List ℝ) :=
  X.map (predictProbaRowM s)

/-- Entrywise difference of two equally-shaped matrices. -/
def matSub (A B : List (List ℝ)) : List (List ℝ) :=
  List.zipWith (List.zipWith (fun a b => a - b)) A B

/-- The induced matrix 1-norm computed by `scipy.linalg.norm(A, 1)` on a
2-D array: the maximum over columns of the column's absolute sum. -/
def matNorm1 (M : List (List ℝ)) : ℝ :=
  ((List.range ((M.headD []).length)).map
    (fun j => (M.map (fun r => |r.getD j 0|)).sum)).foldr max 0

/-- The vector 1-norm computed by `scipy.linalg.norm(v, 1)` on a 1-D
array: the sum of absolute values. -/
def vecNorm1 (v : List ℝ) : ℝ :=
  (v.map (fun a => |a|)).sum

/-- The convergence distance computed by `SemisupervisedNB.fit`:
`norm(old_coef - clf.coef_, 1) + norm(old_intercept - clf.intercept_, 1)`
with `scipy.linalg.norm`, whose `ord=1` is the induced (maximum absolute
column sum) norm on the 2-D coefficient difference and the plain absolute
sum on the 1-D intercept difference. -/
def emDistance (oldCoef : List (List ℝ)) (oldInt : List ℝ)
    (newCoef : List (List ℝ)) (newInt : List ℝ) : ℝ :=
  matNorm1 (matSub oldCoef newCoef) + vecNorm1 (List.zipWith (fun a b => a - b) oldInt newInt)

/-- The distance the specification describes for the same check: the
entrywise L1 norm of the coefficient difference plus the entrywise L1 norm
of the intercept difference.  This definition follows the specification's
words, for comparison with `emDistance` taken from the source. -/
def claimedDistance (oldCoef : List (List ℝ)) (oldInt : List ℝ)
    (newCoef : List (List ℝ)) (newInt : List ℝ) : ℝ :=
  ((matSub oldCoef newCoef).map (fun r => (r.map (fun a => |a|)).sum)).sum
    + vecNorm1 (List.zipWith (fun a b => a - b) oldInt newInt)

/-- One EM iteration of `SemisupervisedNB.fit` in the `relabel_all = True`
mode: E-step `Y = clf.predict_proba(X)` followed by the M-step
`clf._fit1ofK(X, Y, sample_weight, class_prior)` (with the default
`sample_weight = class_prior = None`). -/
noncomputable def emStep (hp : NBHyper) (X : List (List ℝ)) (s : NBState) : NBState :=
  fit1ofK hp s X (predictProbaM s X) none none

/-- The model after `k` EM iterations from `s` (iterate of `emStep`). -/
noncomputable def emIterate (hp : NBHyper) (X : List (List ℝ)) (s : NBState) : ℕ → NBState
  | 0 => s
  | k + 1 => emStep hp X (emIterate hp X s k)

/-- Terminal states of the EM loop: converged before the iteration budget,
or the budget exhausted (both non-error returns of `fit`). -/
inductive EMStatus where
  | converged
  | maxIterExceeded
  deriving DecidableEq, Repr

/-- The `for i in xrange(self.n_iter)` loop of `SemisupervisedNB.fit` in
the `relabel_all = True` mode: each pass performs the E- and M-steps, then
breaks when `emDistance` between the previous snapshot (the parameters of
the model entering the pass) and the freshly fitted parameters drops below
`tolF = self.tol * n_features`; otherwise it snapshots and continues.
Running out of iterations returns the last fitted model, not an error. -/
noncomputable def emLoop (hp : NBHyper) (X : List (List ℝ)) (tolF : ℝ) :
    ℕ → NBState → NBState × EMStatus
  | 0, s => (s, .maxIterExceeded)
  | fuel + 1, s =>
    let s2 := emStep hp X s
    if emDistance s.feature_log_prob s.class_log_prior s2.feature_log_prob s2.class_log_prior < tolF
    then (s2, .converged)
    else emLoop hp X tolF fuel s2

/-- Row selection `M[idx, :]` by a list of row indices. -/
def selectRows (M : List (List ℝ)) (idx : List ℕ) : List (List ℝ) :=
  idx.map (fun i => M.getD i [])

/-- Indices of the labeled rows, `np.where(y != -1)[0]`. -/
def labeledIdx (y : List ℤ) : List ℕ :=
  (List.range y.length).filter (fun i => y.getD i 0 ≠ -1)

/-- Indices of the unlabeled rows, `np.where(y == -1)[0]`. -/
def unlabeledIdx (y : List ℤ) : List ℕ :=
  (List.range y.length).filter (fun i => y.getD i 0 = -1)

/-- The iteration loop of `SemisupervisedNB.fit` covering both modes.
`unl` carries the locals `X_unlabeled, Y_unlabeled`, which the source
assigns only inside `if self.relabel_all:`; when `relabel_all` is false
they are therefore unbound (`none`) and the E-step's
`Y_unlabeled[:] = clf.predict_proba(X_unlabeled)` raises Python's
`UnboundLocalError`, embedded as `PyErr.nameError`.  In the unreachable
combination (`relabel_all` false with bound locals) the slice assignment
writes into the fancy-indexing copy `Y_unlabeled`, so the M-step keeps
refitting the original matrix `Y`. -/
noncomputable def ssLoop (hp : NBHyper) (X : List (List ℝ)) (Y : List (List ℝ))
    (relabel_all : Bool) (unl : Option (List (List ℝ) × List (List ℝ))) (tolF : ℝ) :
    ℕ → NBState → Except PyErr NBState
  | 0, s => .ok s
  | fuel + 1, s =>
    if relabel_all then
      let s2 := emStep hp X s
      if emDistance s.feature_log_prob s.class_log_prior s2.feature_log_prob s2.class_log_prior < tolF
      then .ok s2
      else ssLoop hp X Y relabel_all unl tolF fuel s2
    else
      match unl with
      | none => .error .nameError
      | some _ =>
        let s2 := fit1ofK hp s X Y none none
        if emDistance s.feature_log_prob s.class_log_prior s2.feature_log_prob s2.class_log_prior < tolF
        then .ok s2
        else ssLoop hp X Y relabel_all unl tolF fuel s2

/-- Embedding of `SemisupervisedNB.fit(X, y)` (with the default
`sample_weight = class_prior = None`): label conversion over the full `y`
(so the sentinel `-1` itself becomes a class), computation of the labeled
row indices, conditional binding of the unlabeled locals (only when
`relabel_all` is set, exactly as in the source), tolerance scaling by the
feature count, the initial M-step on the labeled rows, and the loop. -/
noncomputable def ssFit (hp : NBHyper) (n_iter : ℕ) (relabel_all : Bool) (tol : ℝ)
    (s : NBState) (X : List (List ℝ)) (y : List ℤ) : Except PyErr NBState :=
  let sY := label1ofK s y
  let labeled := labeledIdx y
  let unl := if relabel_all
             then some (selectRows X (unlabeledIdx y), selectRows sY.2 (unlabeledIdx y))
             else none
  let tolF := tol * ((X.headD []).length : ℝ)
  let s2 := fit1ofK hp sY.1 (selectRows X labeled) (selectRows sY.2 labeled) none none
  ssLoop hp X sY.2 relabel_all unl tolF n_iter s2

/-- Estimator objects that can be handed to `SemisupervisedNB.__init__`:
the naive-Bayes classes of `em_bayes.py`.  `multinomialNB` and
`bernoulliNB` subclass `BaseDiscreteNB`; `gaussianNB` does not. -/
inductive NBEstimator where
  | multinomialNB (alpha : ℝ) (fit_prior : Bool)
  | bernoulliNB (alpha : ℝ) (binarize : Option ℝ) (fit_prior : Bool)
  | gaussianNB

/-- The `isinstance(estimator, BaseDiscreteNB)` test of
`SemisupervisedNB.__init__`. -/
def NBEstimator.isDiscreteNB : NBEstimator → Bool
  | .multinomialNB _ _ => true
  | .bernoulliNB _ _ _ => true
  | .gaussianNB => false

/-- The trainer object built by a successful `SemisupervisedNB.__init__`:
exactly the five constructor arguments, stored unchanged. -/
structure SemisupervisedNB where
  estimator : NBEstimator
  n_iter : ℕ
  relabel_all : Bool
  tol : ℝ
  verbose : Bool

/-- Embedding of `SemisupervisedNB.__init__(estimator, n_iter,
relabel_all, tol, verbose)`: raises `TypeError` unless the estimator is a
`BaseDiscreteNB` instance, and otherwise stores the five arguments. -/
def SemisupervisedNB.init (estimator : NBEstimator) (n_iter : ℕ)
    (relabel_all : Bool) (tol : ℝ) (verbose : Bool) :
    Except PyErr SemisupervisedNB :=
  if estimator.isDiscreteNB then .ok ⟨estimator, n_iter, relabel_all, tol, verbose⟩
  else .error .typeError

/-- The index comparison `numpy.argsort` effectively uses on the score row
`sc`: ascending score, with equal scores kept in index order (the stable
behaviour `argsort` exhibits on the small per-instance class rows this
method receives). -/
def argRel (sc : ℕ → ℚ) (i j : ℕ) : Prop :=
  sc i < sc j ∨ (sc i = sc j ∧ i ≤ j)

instance argRelDecidable (sc : ℕ → ℚ) : DecidableRel (argRel sc) := by
  intro i j
  unfold argRel
  infer_instance

instance argRelTotal (sc : ℕ → ℚ) : IsTotal ℕ (argRel sc) where
  total i j := by
    rcases lt_trichotomy (sc i) (sc j) with h | h | h
    · exact Or.inl (Or.inl h)
    · rcases Nat.le_total i j with hij | hij
      · exact Or.inl (Or.inr ⟨h, hij⟩)
      · exact Or.inr (Or.inr ⟨h.symm, hij⟩)
    · exact Or.inr (Or.inl h)

instance argRelTrans (sc : ℕ → ℚ) : IsTrans ℕ (argRel sc) where
  trans i j k hij hjk := by
    rcases hij with h1 | ⟨e1, l1⟩
    · rcases hjk with h2 | ⟨e2, _⟩
      · exact Or.inl (h1.trans h2)
      · exact Or.inl (e2 ▸ h1)
    · rcases hjk with h2 | ⟨e2, l2⟩
      · exact Or.inl (e1 ▸ h2)
      · exact Or.inr ⟨e1.trans e2, l1.trans l2⟩

/-- The ascending index sort `indexes = predicted_classes.argsort()`
restricted to the single row the method receives (`indexes[0]`), with the
row modelled as exact rationals. -/
def argsortAsc (scores : List ℚ) : List ℕ :=
  List.insertionSort (argRel (fun i => scores.getD i 0)) (List.range scores.length)

/-- Embedding of `ActivePipeline._most_probable_classes` for a single
instance: ascending argsort of the score row, `reverse()`, the first
`number_of_options` indices mapped to class names, and finally
`result.append(self.classes[-1])` — the last class of the fitted class
list.  `k` is `self.config['number_of_options']` and `classes` is
`self.classes`. -/
def most_probable_classes (scores : List ℚ) (classes : List String) (k : ℕ) : List String :=
  (((argsortAsc scores).reverse.take k).map (fun i => classes.getD i "")) ++
    [classes.getLastD ""]

/-- The shortlist the specification describes for the same call: the
top-`k` classes by descending score with ties broken by ascending class
index, plus the lowest-scoring class appended as the explicit "none of
these" option.  This definition follows the specification's words, for
comparison with `most_probable_classes` taken from the source. -/
def claimedMostProbableClasses (scores : List ℚ) (classes : List String) (k : ℕ) : List String :=
  let desc := List.insertionSort
    (fun i j => scores.getD j 0 < scores.getD i 0 ∨
      (scores.getD i 0 = scores.getD j 0 ∧ i ≤ j))
    (List.range scores.length)
  ((desc.take k).map (fun i => classes.getD i "")) ++
    [classes.getD (desc.getLastD 0) ""]

/-- Embedding of `random.choice(seq)` (Python 2):
`seq[int(random() * len(seq))]` where `random()` returns the draw
`r ∈ [0, 1)`; an empty sequence makes the computed index out of range and
raises `IndexError`. -/
def randomChoice {α : Type} (pool : List α) (r : ℚ) : Except PyErr α :=
  let idx := (⌊r * pool.length⌋).toNat
  if h : idx < pool.length then .ok (pool.get ⟨idx, h⟩)
  else .error .indexError

/-- Embedding of `ActivePipeline.get_next_instance`: it wraps the random
choice from `self.unlabeled_corpus` in `try ... except IndexError` and
returns `None` when the pool is empty — the fault is swallowed into a
plain value instead of a checkable error. -/
def get_next_instance {α : Type} (pool : List α) (r : ℚ) : Option α :=
  match randomChoice pool r with
  | .ok q => some q
  | .error _ => none

/-- Modelled from the spec: the `selectNextInstance` behaviour section 4.3
and section 7 require — a uniform-random element of the remaining
unlabeled pool, and a checkable `EmptyPoolError` failure when the pool is
empty.  The repository has no such operation (its `get_next_instance`
swallows the fault); this definition follows the specification's words,
for comparison with `get_next_instance` taken from the source. -/
def selectNextInstanceSpec {α : Type} (pool : List α) (r : ℚ) : Except PyErr α :=
  let idx := (⌊r * pool.length⌋).toNat
  if h : idx < pool.length then .ok (pool.get ⟨idx, h⟩)
  else .error .emptyPoolError

/-- The configuration options the embedding tracks, a representative
subset of the keys of `defaults.default_config`. -/
structure PipeConfig where
  u_corpus_f : String
  number_of_classes : ℕ
  number_of_features : ℕ
  feature_boost : ℚ
  deriving DecidableEq, Repr

/-- Keyword arguments accepted by `ActivePipeline.__init__(**kwargs)`:
each recognized option may be supplied or omitted. -/
structure PipeKwargs where
  u_corpus_f : Option String := none
  number_of_classes : Option ℕ := none
  number_of_features : Option ℕ := none
  feature_boost : Option ℚ := none

/-- Dictionary merge `default_config.update(kwargs)`: supplied options
overwrite the stored ones, omitted options keep them. -/
def updateConfig (c : PipeConfig) (kw : PipeKwargs) : PipeConfig where
  u_corpus_f := kw.u_corpus_f.getD c.u_corpus_f
  number_of_classes := kw.number_of_classes.getD c.number_of_classes
  number_of_features := kw.number_of_features.getD c.number_of_features
  feature_boost := kw.feature_boost.getD c.feature_boost

/-- The configuration steps of `ActivePipeline.__init__`: the globals
state is the module-level `default_config` dictionary of `defaults.py`;
the constructor runs `default_config.update(kwargs)` — mutating the
process-wide dictionary in place — and then stores that same dictionary as
`self.config`.  The result is (new global state, the construction's
`self.config`). -/
def activePipelineInitConfig (globalDefault : PipeConfig) (kw : PipeKwargs) :
    PipeConfig × PipeConfig :=
  let merged := updateConfig globalDefault kw
  (merged, merged)

/-- The initial contents of `defaults.default_config` (the options
`PipeConfig` tracks). -/
def initialDefaultConfig : PipeConfig where
  u_corpus_f := "corpus/unlabeled_new_corpus.pickle"
  number_of_classes := 30
  number_of_features := 30
  feature_boost := 1 / 2

/-- Modelled from the spec: the `Corpus` collaborator (its defining
`corpus` module is absent from the sources; section 3 and section 6 give
its contract).  Parallel, equal-length arrays of instance vectors, target
label lists (empty list = unlabeled, first element = primary label) and
human-readable representations. -/
structure Corpus where
  instances : List (List ℚ)
  targets : List (List String)
  representations : List String

/-- Modelled from the spec: the `primary_targets` parallel array — the
first label of each instance's target list (`""` when unlabeled). -/
def Corpus.primary_targets (c : Corpus) : List String :=
  c.targets.map (fun t => t.headD "")

/-- Modelled from the spec: `pop_instance(index)` removes the indexed
instance from all three parallel arrays and returns it as a
(vector, targets, representation) triple. -/
def Corpus.pop_instance (c : Corpus) (i : ℕ) :
    (List ℚ × List String × String) × Corpus :=
  ((c.instances.getD i [], c.targets.getD i [], c.representations.getD i ""),
   ⟨c.instances.eraseIdx i, c.targets.eraseIdx i, c.representations.eraseIdx i⟩)

/-- Modelled from the spec: `add_instance` appends to all three parallel
arrays. -/
def Corpus.add_instance (c : Corpus) (v : List ℚ) (ts : List String)
    (rep : String) : Corpus :=
  ⟨c.instances ++ [v], c.targets ++ [ts], c.representations ++ [rep]⟩

/-- The `ActivePipeline` attributes `instance_bootstrap` touches, with the
classifier model kept abstract in `M`. -/
structure BootState (M : Type) where
  unlabeled_corpus : Corpus
  user_corpus : Corpus
  new_instances : ℕ
  model : M
  emulate : Bool

/-- The controller operations `instance_bootstrap` calls on the pipeline.
`trainFn` embeds `ActivePipeline._train` (a full refit of the model) and
`emFn` embeds `ActivePipeline._expectation_maximization` (the forced EM
pass); both are modelled from the spec as far as their frame goes — the
method bodies live outside the sources, and per section 4.3 and section 5
they recompute model parameters only, leaving the corpora and session
counters untouched, which the abstract type `M` enforces.  `candidatesFn`
embeds `ActivePipeline._most_probable_classes` as called here, producing
the class shortlist shown to the oracle for an instance. -/
structure LoopCtx (M : Type) where
  trainFn : M → M
  emFn : M → M
  candidatesFn : M → List ℚ → List String

/-- Outcome of one pass of the `instance_bootstrap` while-loop body:
`halted` for `break` (the answer `'stop'`), `stepped` for reaching the end
of the body or `continue` (the loop goes on with the new state and labeled
count), and `faulted` for the `except IndexError: import ipdb;
ipdb.set_trace()` debugger drop. -/
inductive StepOutcome (M : Type) where
  | halted (st : BootState M) (result : ℕ)
  | stepped (st : BootState M) (result : ℕ)
  | faulted

/-- The answer processed by one `instance_bootstrap` pass: the stored
primary target when emulating an instance that has one, otherwise the
oracle's reply to the representation and candidate shortlist. -/
def stepPrediction {M : Type} (ctx : LoopCtx M) (oracle : String → List String → String)
    (pick : ℕ) (st : BootState M) : String :=
  let primary := st.unlabeled_corpus.primary_targets.getD pick ""
  if st.emulate ∧ primary ≠ "" then primary
  else oracle (st.unlabeled_corpus.representations.getD pick "")
    (ctx.candidatesFn st.model (st.unlabeled_corpus.instances.getD pick []))

/-- One pass of the `instance_bootstrap` loop body, given the index `pick`
returned by `get_next_instance`.  An out-of-range index faults (the
source's `ipdb` debugger drop); `'stop'` breaks; `'train'` runs
`activepipe._train()` then `activepipe._expectation_maximization()` and
continues; any other answer counts the instance, pops it from the
unlabeled corpus and adds it, with the answer prepended to its stored
targets, to the user corpus. -/
def bootstrapStep {M : Type} (ctx : LoopCtx M) (oracle : String → List String → String)
    (pick : ℕ) (st : BootState M) (result : ℕ) : StepOutcome M :=
  if pick < st.unlabeled_corpus.instances.length then
    let prediction := stepPrediction ctx oracle pick st
    if prediction = "stop" then .halted st result
    else if prediction = "train" then
      .stepped { st with model := ctx.emFn (ctx.trainFn st.model) } result
    else
      let popped := st.unlabeled_corpus.pop_instance pick
      .stepped
        { st with
          unlabeled_corpus := popped.2
          user_corpus := st.user_corpus.add_instance popped.1.1
            (prediction :: popped.1.2.1) popped.1.2.2
          new_instances := st.new_instances + 1 }
        (result + 1)
  else .faulted

/-- The `while` guard of `instance_bootstrap`:
`(not max_iterations or it < max_iterations) and len(unlabeled_corpus)`. -/
def bootstrapGuard (max_iterations : Option ℕ) (it : ℕ) (poolLen : ℕ) : Bool :=
  (match max_iterations with
   | none => true
   | some m => decide (it < m)) && decide (poolLen ≠ 0)

/-- The `instance_bootstrap` loop: `picks i` is the index
`get_next_instance` returns on the iteration with counter value `i`, and
`oracle` is `get_labeled_instance`.  The loop returns the count of labeled
instances, or `none` for the debugger fault.  `fuel` bounds the unrolling
(the source can loop forever when `max_iterations` is `None` and the
oracle keeps answering `'train'`; any execution that terminates is
reproduced with a large enough fuel). -/
def instanceBootstrapLoop {M : Type} (ctx : LoopCtx M)
    (oracle : String → List String → String) (picks : ℕ → ℕ)
    (max_iterations : Option ℕ) :
    ℕ → ℕ → ℕ → BootState M → Option ℕ
  | 0, _, result, _ => some result
  | fuel + 1, it, result, st =>
    if bootstrapGuard max_iterations it st.unlabeled_corpus.instances.length then
      match bootstrapStep ctx oracle (picks it) st result with
      | .halted _ r => some r
      | .stepped st2 r => instanceBootstrapLoop ctx oracle picks max_iterations fuel (it + 1) r st2
      | .faulted => none
    else some result

/-- The claim's label matrix entry: `Y[i][c]` of the one-hot matrix over
the sorted distinct labels of `y`, row-scaled by the sample weight when
one is given.  This definition follows the claim's words, for comparison
with the fitted state produced by `fitNB`. -/
def claimY (y : List ℤ) (w : Option (List ℝ)) (i c : ℕ) : ℝ :=
  (match w with | none => 1 | some l => l.getD i 0) *
    (if y.getD i 0 = (uniqueSorted y).getD c 0 then 1 else 0)

/-- The claim's per-(class, feature) count `N_ci = Yᵀ·X`:
`∑ i, Y[i][c]·X[i][j]` over the samples. -/
def claimNci (Xm : List (List ℝ)) (y : List ℤ) (w : Option (List ℝ)) (c j : ℕ) : ℝ :=
  ((List.range y.length).map (fun i => claimY y w i c * entry Xm i j)).sum

/-- The claim's per-class total `N_c`: the row sum of `N_ci` over the
features. -/
def claimNc (Xm : List (List ℝ)) (y : List ℤ) (w : Option (List ℝ)) (c : ℕ) : ℝ :=
  ((List.range ((Xm.headD []).length)).map (fun j => claimNci Xm y w c j)).sum

/-- The claim's fitted feature log-probability
`log(N_ci + alpha) − log(N_c + alpha·F)` with `F` the feature count of
`Xm`.  Instantiated at the raw `X` it is the formula claim C4 states;
instantiated at the variant-binarized matrix `countX v X` it is the
formula the code realizes. -/
noncomputable def claimedFeatureLogProb (alpha : ℝ) (Xm : List (List ℝ)) (y : List ℤ)
    (w : Option (List ℝ)) (c j : ℕ) : ℝ :=
  Real.log (claimNci Xm y w c j + alpha) -
    Real.log (claimNc Xm y w c + alpha * (((Xm.headD []).length : ℕ) : ℝ))

/-- The convergence distance observed between consecutive EM iterates
starting from `s`: `emDist ... i` is the distance the loop computes on its
pass number `i` (0-based). -/
noncomputable def emDist (hp : NBHyper) (X : List (List ℝ)) (s : NBState) (i : ℕ) : ℝ :=
  emDistance (emIterate hp X s i).feature_log_prob (emIterate hp X s i).class_log_prior
    (emIterate hp X s (i + 1)).feature_log_prob (emIterate hp X s (i + 1)).class_log_prior

/-- Concrete loop context used to exercise `bootstrapStep`: a numeric
model where the full refit adds one and the EM pass doubles. -/
def bootCtx : LoopCtx ℕ where
  trainFn := fun m => m + 1
  emFn := fun m => m * 2
  candidatesFn := fun _ _ => []

/-- Concrete oracle that always asks for a forced retrain. -/
def trainOracle : String → List String → String := fun _ _ => "train"

/-- Concrete pipeline state with a one-instance unlabeled pool. -/
def bootSt : BootState ℕ where
  unlabeled_corpus := ⟨[[1]], [[]], ["q"]⟩
  user_corpus := ⟨[], [], []⟩
  new_instances := 0
  model := 5
  emulate := false

theorem getD_range_map {β : Type} (f : ℕ → β) (n i : ℕ) (d : β) (h : i < n) :
    ((List.range n).map f).getD i d = f i := by
  rw [List.getD_eq_getElem?_getD, List.getElem?_map, List.getElem?_range h]
  rfl

theorem getD_map_lt {α β : Type} (f : α → β) (l : List α) (i : ℕ) (d1 : α) (d2 : β)
    (h : i < l.length) :
    (l.map f).getD i d2 = f (l.getD i d1) := by
  rw [List.getD_eq_getElem?_getD, List.getElem?_map,
    List.getElem?_eq_getElem h, List.getD_eq_getElem?_getD, List.getElem?_eq_getElem h]
  rfl

theorem zipWith_getD {α β γ : Type} (g : α → β → γ) (da : α) (db : β) (dc : γ) :
    ∀ (as : List α) (bs : List β) (i : ℕ), i < as.length → i < bs.length →
      (List.zipWith g as bs).getD i dc = g (as.getD i da) (bs.getD i db) := by
  intro as
  induction as with
  | nil => intro bs i h1 _; simp at h1
  | cons a t ih =>
    intro bs i h1 h2
    cases bs with
    | nil => simp at h2
    | cons b u =>
      cases i with
      | zero => rfl
      | succ i =>
        simp only [List.zipWith_cons_cons, List.getD_cons_succ]
        exact ih u i (Nat.lt_of_succ_lt_succ h1) (Nat.lt_of_succ_lt_succ h2)

theorem zipWith_ne_nil {α β γ : Type} (g : α → β → γ) (as : List α) (bs : List β)
    (h1 : as ≠ []) (h2 : bs ≠ []) : List.zipWith g as bs ≠ [] := by
  cases as with
  | nil => exact absurd rfl h1
  | cons a t =>
    cases bs with
    | nil => exact absurd rfl h2
    | cons b u => simp

theorem sum_map_exp_nonneg (l : List ℝ) : 0 ≤ (l.map Real.exp).sum := by
  induction l with
  | nil => simp
  | cons a t ih =>
    simp only [List.map_cons, List.sum_cons]
    exact add_nonneg (Real.exp_pos a).le ih

theorem sum_map_exp_pos (l : List ℝ) (h : l ≠ []) : 0 < (l.map Real.exp).sum := by
  cases l with
  | nil => exact absurd rfl h
  | cons a t =>
    simp only [List.map_cons, List.sum_cons]
    exact add_pos_of_pos_of_nonneg (Real.exp_pos a) (sum_map_exp_nonneg t)

theorem sum_map_exp_sub (l : List ℝ) (c : ℝ) :
    (l.map (fun v => Real.exp (v - c))).sum = Real.exp (-c) * (l.map Real.exp).sum := by
  induction l with
  | nil => simp
  | cons a t ih =>
    simp only [List.map_cons, List.sum_cons]
    rw [ih]
    have hx : Real.exp (a - c) = Real.exp (-c) * Real.exp a := by
      rw [sub_eq_add_neg, Real.exp_add]; ring
    rw [hx]
    ring

/-- The numerically stable log-sum-exp of a non-empty row equals the plain
log of the summed exponentials. -/
theorem logsumexp_eq (l : List ℝ) (h : l ≠ []) :
    logsumexp l = Real.log ((l.map Real.exp).sum) := by
  unfold logsumexp
  rw [sum_map_exp_sub, Real.log_mul (Real.exp_ne_zero _) (ne_of_gt (sum_map_exp_pos l h)),
    Real.log_exp]
  ring

theorem normalizeRow_eq (l : List ℝ) (h : l ≠ []) :
    normalizeRow l = l.map (fun a => a - Real.log ((l.map Real.exp).sum)) := by
  unfold normalizeRow
  rw [logsumexp_eq l h]

/-- Exponentiating a log-sum-exp-normalized non-empty row gives a
probability vector: the entries sum to exactly 1. -/
theorem normalizeRow_exp_sum (l : List ℝ) (h : l ≠ []) :
    ((normalizeRow l).map Real.exp).sum = 1 := by
  rw [normalizeRow_eq l h, List.map_map]
  have heq : (Real.exp ∘ fun a => a - Real.log ((l.map Real.exp).sum)) =
      fun v => Real.exp (v - Real.log ((l.map Real.exp).sum)) := rfl
  rw [heq, sum_map_exp_sub, Real.exp_neg, Real.exp_log (sum_map_exp_pos l h),
    inv_mul_cancel₀ (ne_of_gt (sum_map_exp_pos l h))]

theorem oneHot_length (cls y : List ℤ) : (oneHot cls y).length = y.length := by
  simp [oneHot]

theorem oneHot_getD (cls y : List ℤ) (i : ℕ) (hi : i < y.length) :
    (oneHot cls y).getD i [] =
      cls.map (fun cc => if y.getD i 0 = cc then (1 : ℝ) else 0) := by
  unfold oneHot
  rw [getD_map_lt _ y i 0 [] hi]

theorem countX_headD_length (v : NBVariant) (X : List (List ℝ)) :
    ((countX v X).headD []).length = (X.headD []).length := by
  cases v with
  | multinomial => rfl
  | bernoulli th =>
    cases th with
    | none => rfl
    | some t =>
      cases X with
      | nil => rfl
      | cons x0 xt => simp [countX]

theorem uniqueSorted_ne_nil_of_two_le (y : List ℤ) (h2 : 2 ≤ (uniqueSorted y).length) :
    y ≠ [] := by
  intro hy
  rw [hy] at h2
  simp [uniqueSorted] at h2

theorem scaleRows_length_oneHot (y : List ℤ) (w : Option (List ℝ))
    (hw : w = none ∨ ∃ l, w = some l ∧ l.length = y.length) :
    (scaleRows w (oneHot (uniqueSorted y) y)).length = y.length := by
  rcases hw with rfl | ⟨l, rfl, hl⟩
  · exact oneHot_length _ _
  · simp [scaleRows, oneHot, hl]

theorem scaleRows_headD_length (y : List ℤ) (w : Option (List ℝ)) (hy : y ≠ [])
    (hw : w = none ∨ ∃ l, w = some l ∧ l.length = y.length) :
    ((scaleRows w (oneHot (uniqueSorted y) y)).headD []).length =
      (uniqueSorted y).length := by
  cases y with
  | nil => exact absurd rfl hy
  | cons y0 yt =>
    rcases hw with rfl | ⟨l, rfl, hl⟩
    · simp [scaleRows, oneHot]
    · cases l with
      | nil => simp at hl
      | cons l0 lt => simp [scaleRows, oneHot]

theorem entry_scaleRows_oneHot (y : List ℤ) (w : Option (List ℝ)) (i c2 : ℕ)
    (hi : i < y.length) (hc2 : c2 < (uniqueSorted y).length)
    (hw : w = none ∨ ∃ l, w = some l ∧ l.length = y.length) :
    entry (scaleRows w (oneHot (uniqueSorted y) y)) i c2 = claimY y w i c2 := by
  rcases hw with rfl | ⟨l, rfl, hl⟩
  · unfold entry scaleRows claimY
    rw [oneHot_getD _ _ i hi,
      getD_map_lt (fun cc => if y.getD i 0 = cc then (1 : ℝ) else 0) _ c2 0 0 hc2]
    simp
  · unfold entry scaleRows claimY
    rw [zipWith_getD _ 0 [] [] l (oneHot (uniqueSorted y) y) i (hl ▸ hi)
      ((oneHot_length (uniqueSorted y) y) ▸ hi)]
    rw [oneHot_getD _ _ i hi, List.map_map]
    have hcomp : ((fun v => l.getD i 0 * v) ∘ fun cc => if y.getD i 0 = cc then (1 : ℝ) else 0)
        = fun cc => l.getD i 0 * (if y.getD i 0 = cc then (1 : ℝ) else 0) := rfl
    rw [hcomp, getD_map_lt (fun cc => l.getD i 0 * (if y.getD i 0 = cc then (1 : ℝ) else 0))
      _ c2 0 0 hc2]


theorem entry_zipWith_rowmap (f : ℝ → ℝ → ℝ) (Nci : List (List ℝ)) (c j : ℕ)
    (hc : c < Nci.length) (hj : j < (Nci.getD c []).length) :
    entry (List.zipWith (fun row nc => row.map (fun v => f v nc)) Nci (Nci.map List.sum)) c j
      = f ((Nci.getD c []).getD j 0) ((Nci.getD c []).sum) := by
  unfold entry
  rw [zipWith_getD _ [] 0 [] _ _ c hc (by rw [List.length_map]; exact hc)]
  rw [getD_map_lt List.sum _ c [] 0 hc]
  rw [getD_map_lt (fun v => f v ((Nci.getD c []).sum)) _ j 0 0 hj]

/-- Characterization of the feature log-probabilities installed by a
successful `BaseDiscreteNB.fit`: entry `(c, j)` is
`log(N_ci + alpha) − log(N_c + alpha·F)` with the counts taken over the
weighted one-hot label matrix and the variant's counted matrix
(`X` itself for `MultinomialNB`, the binarized `X` for `BernoulliNB`). -/
theorem fitNB_flp_entry (hp : NBHyper) (s : NBState) (X : List (List ℝ)) (y : List ℤ)
    (w : Option (List ℝ)) (cp : Option (List ℝ)) (c j : ℕ)
    (hlen : X.length = y.length)
    (hw : w = none ∨ ∃ l, w = some l ∧ l.length = y.length)
    (h2 : 2 ≤ (uniqueSorted y).length)
    (hc : c < (uniqueSorted y).length)
    (hj : j < (X.headD []).length) :
    (fitNB hp s X y w cp).2 = none ∧
      entry (fitNB hp s X y w cp).1.feature_log_prob c j =
        claimedFeatureLogProb hp.alpha (countX hp.variant X) y w c j := by
  have hy : y ≠ [] := uniqueSorted_ne_nil_of_two_le y h2
  have hYlen : (oneHot (uniqueSorted y) y).length = y.length := oneHot_length _ _
  have hcond : ¬ X.length ≠ (oneHot (uniqueSorted y) y).length := by
    simp [hYlen, hlen]
  have e1 : fitNB hp s X y w cp =
      (fit1ofK hp { s with classes := uniqueSorted y } X (oneHot (uniqueSorted y) y) w cp,
        none) := by
    unfold fitNB label1ofK
    rw [if_neg hcond]
  refine ⟨by rw [e1], ?_⟩
  rw [e1]
  have hYwlen : (scaleRows w (oneHot (uniqueSorted y) y)).length = y.length :=
    scaleRows_length_oneHot y w hw
  have hYwhead : ((scaleRows w (oneHot (uniqueSorted y) y)).headD []).length =
      (uniqueSorted y).length := scaleRows_headD_length y w hy hw
  have hXchead : ((countX hp.variant X).headD []).length = (X.headD []).length :=
    countX_headD_length hp.variant X
  have e2 : (fit1ofK hp { s with classes := uniqueSorted y } X (oneHot (uniqueSorted y) y)
      w cp).feature_log_prob =
      List.zipWith (fun row nc => row.map (fun v =>
          Real.log (v + hp.alpha) - Real.log (nc + hp.alpha * ((X.headD []).length : ℝ))))
        (countNci (countX hp.variant X) (scaleRows w (oneHot (uniqueSorted y) y)))
        ((countNci (countX hp.variant X) (scaleRows w (oneHot (uniqueSorted y) y))).map
          List.sum) := rfl
  rw [e2]
  have hNciLen : (countNci (countX hp.variant X)
      (scaleRows w (oneHot (uniqueSorted y) y))).length = (uniqueSorted y).length := by
    unfold countNci
    rw [List.length_map, List.length_range, hYwhead]
  have e3 : (countNci (countX hp.variant X)
      (scaleRows w (oneHot (uniqueSorted y) y))).getD c [] =
      (List.range ((X.headD []).length)).map (fun j2 =>
        ((List.range y.length).map (fun i =>
          entry (scaleRows w (oneHot (uniqueSorted y) y)) i c *
            entry (countX hp.variant X) i j2)).sum) := by
    unfold countNci
    rw [hYwhead, hXchead, hYwlen, getD_range_map _ _ c [] hc]
  rw [entry_zipWith_rowmap _ _ c j (by rw [hNciLen]; exact hc)
    (by rw [e3, List.length_map, List.length_range]; exact hj)]
  rw [e3, getD_range_map _ _ j 0 hj]
  have hrow : ∀ j2 : ℕ,
      ((List.range y.length).map (fun i =>
        entry (scaleRows w (oneHot (uniqueSorted y) y)) i c *
          entry (countX hp.variant X) i j2)).sum =
        claimNci (countX hp.variant X) y w c j2 := by
    intro j2
    unfold claimNci
    congr 1
    refine List.map_congr_left ?_
    intro i hi
    rw [List.mem_range] at hi
    rw [entry_scaleRows_oneHot y w i c hi hc hw]
  unfold claimedFeatureLogProb
  rw [hrow j]
  have hNc : ((List.range ((X.headD []).length)).map (fun j2 =>
      ((List.range y.length).map (fun i =>
        entry (scaleRows w (oneHot (uniqueSorted y) y)) i c *
          entry (countX hp.variant X) i j2)).sum)).sum =
      claimNc (countX hp.variant X) y w c := by
    unfold claimNc
    rw [hXchead]
    congr 1
    refine List.map_congr_left ?_
    intro j2 _
    exact hrow j2
  rw [hNc, hXchead]

theorem emIterate_shift (hp : NBHyper) (X : List (List ℝ)) (s : NBState) :
    ∀ k : ℕ, emIterate hp X s (k + 1) = emIterate hp X (emStep hp X s) k := by
  intro k
  induction k with
  | zero => rfl
  | succ k ih =>
    show emStep hp X (emIterate hp X s (k + 1)) = emIterate hp X (emStep hp X s) (k + 1)
    rw [ih]
    rfl

theorem emDist_shift (hp : NBHyper) (X : List (List ℝ)) (s : NBState) (i : ℕ) :
    emDist hp X s (i + 1) = emDist hp X (emStep hp X s) i := by
  unfold emDist
  rw [emIterate_shift hp X s i, emIterate_shift hp X s (i + 1)]

/-- The EM loop runs to iteration-budget exhaustion exactly when no pass
meets the tolerance; it then returns the last fitted model with the
`maxIterExceeded` status (not an error). -/
theorem emLoop_maxIter (hp : NBHyper) (X : List (List ℝ)) (tolF : ℝ) :
    ∀ (fuel : ℕ) (s : NBState), (∀ i < fuel, ¬ emDist hp X s i < tolF) →
      emLoop hp X tolF fuel s = (emIterate hp X s fuel, .maxIterExceeded) := by
  intro fuel
  induction fuel with
  | zero => intro s _; rfl
  | succ fuel ih =>
    intro s hno
    have h0 : ¬ emDist hp X s 0 < tolF := hno 0 (Nat.succ_pos fuel)
    have h0x : ¬ emDistance s.feature_log_prob s.class_log_prior
        (emStep hp X s).feature_log_prob (emStep hp X s).class_log_prior < tolF := h0
    show (if emDistance s.feature_log_prob s.class_log_prior
        (emStep hp X s).feature_log_prob (emStep hp X s).class_log_prior < tolF
      then (emStep hp X s, EMStatus.converged)
      else emLoop hp X tolF fuel (emStep hp X s)) = _
    rw [if_neg h0x]
    rw [ih (emStep hp X s) (fun i hi => by
      rw [← emDist_shift hp X s i]
      exact hno (i + 1) (Nat.succ_lt_succ hi))]
    rw [← emIterate_shift hp X s fuel]

/-- The EM loop stops with the `converged` status on the first pass whose
distance drops below the scaled tolerance, returning the model fitted on
that pass. -/
theorem emLoop_converges (hp : NBHyper) (X : List (List ℝ)) (tolF : ℝ) :
    ∀ (fuel : ℕ) (s : NBState) (i : ℕ), i < fuel →
      emDist hp X s i < tolF → (∀ j < i, ¬ emDist hp X s j < tolF) →
      emLoop hp X tolF fuel s = (emIterate hp X s (i + 1), .converged) := by
  intro fuel
  induction fuel with
  | zero => intro s i hi; exact absurd hi (Nat.not_lt_zero i)
  | succ fuel ih =>
    intro s i hi hconv hbefore
    cases i with
    | zero =>
      have h0x : emDistance s.feature_log_prob s.class_log_prior
          (emStep hp X s).feature_log_prob (emStep hp X s).class_log_prior < tolF := hconv
      show (if emDistance s.feature_log_prob s.class_log_prior
          (emStep hp X s).feature_log_prob (emStep hp X s).class_log_prior < tolF
        then (emStep hp X s, EMStatus.converged)
        else emLoop hp X tolF fuel (emStep hp X s)) = _
      rw [if_pos h0x]
      rfl
    | succ i =>
      have h0 : ¬ emDist hp X s 0 < tolF := hbefore 0 (Nat.succ_pos i)
      have h0x : ¬ emDistance s.feature_log_prob s.class_log_prior
          (emStep hp X s).feature_log_prob (emStep hp X s).class_log_prior < tolF := h0
      show (if emDistance s.feature_log_prob s.class_log_prior
          (emStep hp X s).feature_log_prob (emStep hp X s).class_log_prior < tolF
        then (emStep hp X s, EMStatus.converged)
        else emLoop hp X tolF fuel (emStep hp X s)) = _
      rw [if_neg h0x]
      rw [ih (emStep hp X s) i (Nat.lt_of_succ_lt_succ hi)
        (by rw [← emDist_shift hp X s i]; exact hconv)
        (fun j hj => by
          rw [← emDist_shift hp X s j]
          exact hbefore (j + 1) (Nat.succ_lt_succ hj))]
      rw [← emIterate_shift hp X s (i + 1)]

theorem argsortAsc_reverse_pairwise (scores : List ℚ) :
    (argsortAsc scores).reverse.Pairwise (fun i j =>
      scores.getD j 0 < scores.getD i 0 ∨
        (scores.getD i 0 = scores.getD j 0 ∧ j < i)) := by
  have hsorted : (argsortAsc scores).Pairwise (argRel (fun i => scores.getD i 0)) :=
    List.sorted_insertionSort _ _
  have hnodup : (argsortAsc scores).Nodup :=
    ((List.perm_insertionSort _ _).nodup_iff).mpr (List.nodup_range _)
  have hrev1 : (argsortAsc scores).reverse.Pairwise
      (fun i j => argRel (fun i => scores.getD i 0) j i) :=
    List.pairwise_reverse.mpr hsorted
  have hrev2 : (argsortAsc scores).reverse.Pairwise (fun i j => i ≠ j) :=
    List.nodup_reverse.mpr hnodup
  refine (hrev1.and hrev2).imp ?_
  intro i j h
  rcases h.1 with hlt | ⟨heq, hle⟩
  · exact Or.inl hlt
  · exact Or.inr ⟨heq.symm, lt_of_le_of_ne hle (Ne.symm h.2)⟩

theorem argsortAsc_reverse_perm (scores : List ℚ) :
    List.Perm (argsortAsc scores).reverse (List.range scores.length) :=
  ((argsortAsc scores).reverse_perm).trans (List.perm_insertionSort _ _)

theorem ssLoop_true_eq_emLoop (hp : NBHyper) (X Y : List (List ℝ))
    (unl : Option (List (List ℝ) × List (List ℝ))) (tolF : ℝ) :
    ∀ (fuel : ℕ) (s : NBState),
      ssLoop hp X Y true unl tolF fuel s = .ok (emLoop hp X tolF fuel s).1 := by
  intro fuel
  induction fuel with
  | zero => intro s; rfl
  | succ fuel ih =>
    intro s
    show (if emDistance s.feature_log_prob s.class_log_prior
          (emStep hp X s).feature_log_prob (emStep hp X s).class_log_prior < tolF
        then Except.ok (emStep hp X s)
        else ssLoop hp X Y true unl tolF fuel (emStep hp X s)) = _
    by_cases hd : emDistance s.feature_log_prob s.class_log_prior
        (emStep hp X s).feature_log_prob (emStep hp X s).class_log_prior < tolF
    · rw [if_pos hd]
      show _ = Except.ok (if emDistance s.feature_log_prob s.class_log_prior
          (emStep hp X s).feature_log_prob (emStep hp X s).class_log_prior < tolF
        then (emStep hp X s, EMStatus.converged)
        else emLoop hp X tolF fuel (emStep hp X s)).1
      rw [if_pos hd]
    · rw [if_neg hd]
      rw [ih (emStep hp X s)]
      show _ = Except.ok (if emDistance s.feature_log_prob s.class_log_prior
          (emStep hp X s).feature_log_prob (emStep hp X s).class_log_prior < tolF
        then (emStep hp X s, EMStatus.converged)
        else emLoop hp X tolF fuel (emStep hp X s)).1
      rw [if_neg hd]

/-- C1: `SemisupervisedNB.fit` with the `relabel_all` flag disabled never
reaches the spec's E-step behaviour: its first loop pass reads the locals
`X_unlabeled` and `Y_unlabeled`, which are assigned only inside
`if self.relabel_all:`, so the call raises `UnboundLocalError` instead of
completing in a terminal non-error state.  This theorem evaluates the
embedded fit at the failing input (MultinomialNB estimator with default
settings, `n_iter = 10`, `relabel_all = False`, `tol = 1e-5`, a 3-sample
batch with one unlabeled row). -/
theorem c1_relabel_all_disabled_raises :
    ssFit ⟨.multinomial, 1, true⟩ 10 false (1 / 100000) ⟨[], [], []⟩
      [[1, 0], [0, 1], [1, 1]] [0, 1, -1] = .error .nameError := by
  rfl

/-- C2 (amended): a `fit` whose `X` row count differs from the length of
`y` raises the shape error and leaves `class_log_prior_` and
`feature_log_prob_` untouched, but it does not leave the class set
untouched: `_label_1ofK` has already overwritten `_classes` with the
sorted distinct labels of the offending `y` before the check runs. -/
theorem c2_fit_shape_error (hp : NBHyper) (s : NBState) (X : List (List ℝ)) (y : List ℤ)
    (w cp : Option (List ℝ)) (hlen : X.length ≠ y.length) :
    (fitNB hp s X y w cp).2 = some PyErr.shapeError
    ∧ (fitNB hp s X y w cp).1.class_log_prior = s.class_log_prior
    ∧ (fitNB hp s X y w cp).1.feature_log_prob = s.feature_log_prob
    ∧ (fitNB hp s X y w cp).1.classes = uniqueSorted y := by
  have hcond : X.length ≠ (label1ofK s y).2.length := by
    simpa [label1ofK, oneHot_length] using hlen
  simp only [fitNB]
  rw [if_pos hcond]
  exact ⟨rfl, rfl, rfl, rfl⟩

/-- C2 counterexample: a model previously fitted with class set `[0, 1]`
is handed a mismatched call (`X` has 1 row, `y` labels `[2, 3]`); the fit
raises the shape error, yet the stored class set is no longer `[0, 1]` —
fit is not all-or-nothing as claimed. -/
theorem c2_counterexample :
    (fitNB ⟨.multinomial, 1, true⟩ ⟨[0, 1], [0], [[0]]⟩ [[1, 0]] [2, 3] none none).2
        = some PyErr.shapeError
    ∧ (fitNB ⟨.multinomial, 1, true⟩ ⟨[0, 1], [0], [[0]]⟩ [[1, 0]] [2, 3] none none).1.classes
        ≠ ([0, 1] : List ℤ) := by
  have hcls : uniqueSorted [2, 3] = [2, 3] := by decide
  have hcond : ([[1, 0]] : List (List ℝ)).length ≠
      (label1ofK ⟨[0, 1], [0], [[0]]⟩ [2, 3]).2.length := by
    simp [label1ofK, oneHot_length]
  constructor
  · simp only [fitNB]
    rw [if_pos hcond]
  · simp only [fitNB]
    rw [if_pos hcond]
    show (label1ofK ⟨[0, 1], [0], [[0]]⟩ [2, 3]).1.classes ≠ [0, 1]
    simp [label1ofK, hcls]

/-- C2 witness: the amended theorem applied at a concrete mismatched
call. -/
theorem c2_witness :
    (fitNB ⟨.multinomial, 1, true⟩ ⟨[], [], []⟩ [] [5] none none).2 = some PyErr.shapeError :=
  (c2_fit_shape_error ⟨.multinomial, 1, true⟩ ⟨[], [], []⟩ [] [5] none none (by decide)).1

/-- C3 counterexample: the distance the loop computes is not the claimed
entrywise-L1 formula.  At the coefficient difference `[[1, 1], [0, 0]]`
(two classes, two features, intercepts unchanged) `scipy.linalg.norm(·, 1)`
is the maximum absolute column sum `1`, while the entrywise L1 norm is
`2`. -/
theorem c3_counterexample :
    emDistance [[0, 0], [0, 0]] [0, 0] [[1, 1], [0, 0]] [0, 0] ≠
      claimedDistance [[0, 0], [0, 0]] [0, 0] [[1, 1], [0, 0]] [0, 0] := by
  have hL : emDistance [[0, 0], [0, 0]] [0, 0] [[1, 1], [0, 0]] [0, 0] = 1 := by
    norm_num [emDistance, matSub, matNorm1, vecNorm1, List.range_succ, max_def]
  have hR : claimedDistance [[0, 0], [0, 0]] [0, 0] [[1, 1], [0, 0]] [0, 0] = 2 := by
    norm_num [claimedDistance, matSub, vecNorm1]
  rw [hL, hR]
  norm_num

/-- C3 (amended): the per-pass distance is the induced 1-norm (maximum
absolute column sum) of the coefficient difference plus the entrywise L1
norm of the intercept difference; the loop stops in the converged state on
the first pass whose distance drops below `tol · F`, otherwise snapshots
and continues; exhausting the iteration budget ends the loop with the last
fitted parameters in the non-error `maxIterExceeded` state; and the
`relabel_all = True` fit loop returns exactly that loop's model, never an
error. -/
theorem c3_em_distance_and_convergence (hp : NBHyper) (X : List (List ℝ)) (tol : ℝ)
    (fuel : ℕ) (s : NBState) :
    (∀ oldC oldI newC newI, emDistance oldC oldI newC newI =
        matNorm1 (matSub oldC newC) +
          vecNorm1 (List.zipWith (fun a b => a - b) oldI newI))
    ∧ (∀ i, i < fuel → emDist hp X s i < tol * ((X.headD []).length : ℝ) →
        (∀ j < i, ¬ emDist hp X s j < tol * ((X.headD []).length : ℝ)) →
        emLoop hp X (tol * ((X.headD []).length : ℝ)) fuel s =
          (emIterate hp X s (i + 1), .converged))
    ∧ ((∀ i < fuel, ¬ emDist hp X s i < tol * ((X.headD []).length : ℝ)) →
        emLoop hp X (tol * ((X.headD []).length : ℝ)) fuel s =
          (emIterate hp X s fuel, .maxIterExceeded))
    ∧ (∀ Y unl, ssLoop hp X Y true unl (tol * ((X.headD []).length : ℝ)) fuel s =
        .ok (emLoop hp X (tol * ((X.headD []).length : ℝ)) fuel s).1) :=
  ⟨fun _ _ _ _ => rfl,
   fun i hi hconv hbefore => emLoop_converges hp X _ fuel s i hi hconv hbefore,
   fun hno => emLoop_maxIter hp X _ fuel s hno,
   fun Y unl => ssLoop_true_eq_emLoop hp X Y unl _ fuel s⟩

/-- C3 witness: the amended theorem's budget-exhaustion case applied at a
zero-iteration budget. -/
theorem c3_witness :
    emLoop ⟨.multinomial, 1, true⟩ [] ((1 : ℝ) * ((([] : List (List ℝ)).headD []).length : ℝ))
      0 ⟨[], [], []⟩ = (⟨[], [], []⟩, EMStatus.maxIterExceeded) :=
  (c3_em_distance_and_convergence ⟨.multinomial, 1, true⟩ [] 1 0 ⟨[], [], []⟩).2.2.1
    (fun i hi => absurd hi (Nat.not_lt_zero i))

/-- C4 (amended): for every successful `fit`, the fitted feature
log-probability entry `(c, j)` equals
`log(N_ci + alpha) − log(N_c + alpha·F)` with `N_ci = Yᵀ·X′` computed from
the weighted one-hot label matrix and `X′` the matrix the variant's
`_count` actually counts: `X` itself for `MultinomialNB`, but the
binarized `X` for `BernoulliNB` with a non-`None` threshold — not the raw
`X` the claim states. -/
theorem c4_feature_log_prob (hp : NBHyper) (s : NBState) (X : List (List ℝ)) (y : List ℤ)
    (w : Option (List ℝ)) (cp : Option (List ℝ)) (c j : ℕ)
    (hlen : X.length = y.length)
    (hw : w = none ∨ ∃ l, w = some l ∧ l.length = y.length)
    (h2 : 2 ≤ (uniqueSorted y).length)
    (hc : c < (uniqueSorted y).length)
    (hj : j < (X.headD []).length) :
    (fitNB hp s X y w cp).2 = none ∧
      entry (fitNB hp s X y w cp).1.feature_log_prob c j =
        claimedFeatureLogProb hp.alpha (countX hp.variant X) y w c j :=
  fitNB_flp_entry hp s X y w cp c j hlen hw h2 hc hj

/-- C4 witness: the amended theorem at a concrete multinomial fit. -/
theorem c4_witness :
    (fitNB ⟨.multinomial, 1, true⟩ ⟨[], [], []⟩ [[1, 0], [0, 1]] [0, 1] none none).2 = none ∧
      entry (fitNB ⟨.multinomial, 1, true⟩ ⟨[], [], []⟩ [[1, 0], [0, 1]] [0, 1]
          none none).1.feature_log_prob 0 0 =
        claimedFeatureLogProb 1 (countX .multinomial [[1, 0], [0, 1]]) [0, 1] none 0 0 :=
  c4_feature_log_prob ⟨.multinomial, 1, true⟩ ⟨[], [], []⟩ [[1, 0], [0, 1]] [0, 1]
    none none 0 0 (by decide) (Or.inl rfl) (by decide) (by decide) (by decide)

/-- C4 counterexample: a `BernoulliNB` fit with the constructor-default
threshold `binarize = 0.0` on `X = [[2, 0], [0, 2]]`, `y = [0, 1]`,
`alpha = 1`.  The code counts the binarized matrix, giving
`feature_log_prob[0][0] = log 2 − log 3`, while the claim's raw-`X`
formula gives `log 3 − log 4`; the two differ. -/
theorem c4_counterexample :
    entry (fitNB ⟨.bernoulli (some 0), 1, true⟩ ⟨[], [], []⟩ [[2, 0], [0, 2]] [0, 1]
        none none).1.feature_log_prob 0 0 ≠
      claimedFeatureLogProb 1 [[2, 0], [0, 2]] [0, 1] none 0 0 := by
  have h := (fitNB_flp_entry ⟨.bernoulli (some 0), 1, true⟩ ⟨[], [], []⟩ [[2, 0], [0, 2]]
    [0, 1] none none 0 0 (by decide) (Or.inl rfl) (by decide) (by decide) (by decide)).2
  rw [h]
  have hcx : countX (.bernoulli (some 0)) ([[2, 0], [0, 2]] : List (List ℝ)) =
      [[1, 0], [0, 1]] := by
    norm_num [countX]
  have hu : uniqueSorted [0, 1] = [0, 1] := by decide
  have hL : claimedFeatureLogProb 1 [[1, 0], [0, 1]] [0, 1] none 0 0 =
      Real.log 2 - Real.log 3 := by
    simp only [claimedFeatureLogProb, claimNci, claimNc, claimY, entry, hu]
    norm_num [List.range_succ]
  have hR : claimedFeatureLogProb 1 [[2, 0], [0, 2]] [0, 1] none 0 0 =
      Real.log 3 - Real.log 4 := by
    simp only [claimedFeatureLogProb, claimNci, claimNc, claimY, entry, hu]
    norm_num [List.range_succ]
  show claimedFeatureLogProb (NBHyper.alpha ⟨.bernoulli (some 0), 1, true⟩)
      (countX (NBHyper.variant ⟨.bernoulli (some 0), 1, true⟩) [[2, 0], [0, 2]])
      [0, 1] none 0 0 ≠ claimedFeatureLogProb 1 [[2, 0], [0, 2]] [0, 1] none 0 0
  show claimedFeatureLogProb 1 (countX (.bernoulli (some 0)) [[2, 0], [0, 2]])
      [0, 1] none 0 0 ≠ claimedFeatureLogProb 1 [[2, 0], [0, 2]] [0, 1] none 0 0
  rw [hcx, hL, hR]
  have h8 : Real.log 2 + Real.log 4 = Real.log 8 := by
    rw [← Real.log_mul (by norm_num) (by norm_num)]
    norm_num
  have h9 : Real.log 3 + Real.log 3 = Real.log 9 := by
    rw [← Real.log_mul (by norm_num) (by norm_num)]
    norm_num
  have hlt : Real.log 8 < Real.log 9 := Real.log_lt_log (by norm_num) (by norm_num)
  intro heq
  linarith

/-- C5: for either classifier variant, `predict_log_proba` is the joint
log-likelihood row normalized by subtracting the row's log-sum-exp (the
stable max-shifted computation coincides with the plain one), and the rows
of `predict_proba` sum to exactly 1 — in particular within the `1e-9`
tolerance — whenever the model has at least one class and, for the
Bernoulli variant, the batch carries the fitted feature count. -/
theorem c5_predict_proba_normalization (s : NBState) (x : List ℝ) (th : Option ℝ)
    (hclp : s.class_log_prior ≠ []) (hflp : s.feature_log_prob ≠ [])
    (hdim : (binarizeRow th x).length = (s.feature_log_prob.headD []).length) :
    predictLogProbaRowM s x =
        (jllRowM s x).map (fun a => a - Real.log (((jllRowM s x).map Real.exp).sum))
    ∧ (predictProbaRowM s x).sum = 1
    ∧ ∃ row, jllRowB s th x = .ok row ∧
        normalizeRow row = row.map (fun a => a - Real.log ((row.map Real.exp).sum))
        ∧ ((normalizeRow row).map Real.exp).sum = 1 := by
  have hM : jllRowM s x ≠ [] := zipWith_ne_nil _ _ _ hflp hclp
  refine ⟨normalizeRow_eq _ hM, ?_, ?_⟩
  · show ((normalizeRow (jllRowM s x)).map Real.exp).sum = 1
    exact normalizeRow_exp_sum _ hM
  · refine ⟨List.zipWith
      (fun fl c =>
        let negp := fl.map (fun v => Real.log (1 - Real.exp v))
        dot (binarizeRow th x) fl + (negp.sum - dot (binarizeRow th x) negp) + c)
      s.feature_log_prob s.class_log_prior, ?_, ?_, ?_⟩
    · unfold jllRowB
      rw [if_neg (by simp [hdim])]
    · exact normalizeRow_eq _ (zipWith_ne_nil _ _ _ hflp hclp)
    · exact normalizeRow_exp_sum _ (zipWith_ne_nil _ _ _ hflp hclp)

/-- C5 witness: the theorem at a one-class, one-feature model. -/
theorem c5_witness :
    (predictProbaRowM ⟨[], [0], [[0]]⟩ [1]).sum = 1 :=
  (c5_predict_proba_normalization ⟨[], [0], [[0]]⟩ [1] none (by simp) (by simp) rfl).2.1

/-- C6 (amended): for a single instance, `_most_probable_classes` maps the
first `k` indices of the reversed ascending argsort to class names — an
order that is descending by score but breaks score ties by descending
class index — and then appends `self.classes[-1]`, the last class of the
fitted class list, regardless of its score (not the lowest-scoring class).
The reversed argsort is a permutation of all class indices, so the taken
prefix is a genuine top-`k`. -/
theorem c6_most_probable_classes (scores : List ℚ) (classes : List String) (k : ℕ) :
    most_probable_classes scores classes k =
      (((argsortAsc scores).reverse.take k).map (fun i => classes.getD i "")) ++
        [classes.getLastD ""]
    ∧ (argsortAsc scores).reverse.Pairwise (fun i j =>
        scores.getD j 0 < scores.getD i 0 ∨
          (scores.getD i 0 = scores.getD j 0 ∧ j < i))
    ∧ List.Perm (argsortAsc scores).reverse (List.range scores.length) :=
  ⟨rfl, argsortAsc_reverse_pairwise scores, argsortAsc_reverse_perm scores⟩

/-- C6 counterexample: with scores `[3, 1, 2]` over classes
`["A", "B", "C"]` and `k = 2` the code returns `["A", "C", "C"]` (it
appends the last class `"C"`), while the claim's shortlist is
`["A", "C", "B"]` (appending the lowest-scoring class `"B"`); and with the
tied scores `[1, 1, 0]` the code returns `["B", "A", "C"]` (ties broken by
descending index), while the claim says `["A", "B", "C"]`. -/
theorem c6_counterexample :
    most_probable_classes [3, 1, 2] ["A", "B", "C"] 2 ≠
        claimedMostProbableClasses [3, 1, 2] ["A", "B", "C"] 2
    ∧ most_probable_classes [1, 1, 0] ["A", "B", "C"] 2 ≠
        claimedMostProbableClasses [1, 1, 0] ["A", "B", "C"] 2 := by
  constructor
  · decide
  · decide

/-- C7 (amended): on a non-empty pool `get_next_instance` returns the
pool element at the uniform draw's index `⌊r·n⌋` (every pool position is
reached by some draw), but on an empty pool it returns `None` — the
`IndexError` from `random.choice` is caught and swallowed into a plain
value, not surfaced as a checkable `EmptyPoolError`. -/
theorem c7_get_next_instance {α : Type} (pool : List α) (r : ℚ)
    (h0 : 0 ≤ r) (h1 : r < 1) :
    (pool = [] → get_next_instance pool r = none)
    ∧ (pool ≠ [] → ∃ h : (⌊r * (pool.length : ℚ)⌋).toNat < pool.length,
        get_next_instance pool r =
          some (pool.get ⟨(⌊r * (pool.length : ℚ)⌋).toNat, h⟩))
    ∧ ∀ (i : ℕ) (hi : i < pool.length),
        get_next_instance pool ((i : ℚ) / (pool.length : ℚ)) = some (pool.get ⟨i, hi⟩) := by
  refine ⟨?_, ?_, ?_⟩
  · intro he
    subst he
    unfold get_next_instance randomChoice
    simp
  · intro hne
    have hn : 0 < pool.length := List.length_pos.mpr hne
    have hnq : (0 : ℚ) < (pool.length : ℚ) := by exact_mod_cast hn
    have hfl : ⌊r * (pool.length : ℚ)⌋ < (pool.length : ℤ) := by
      apply Int.floor_lt.mpr
      push_cast
      calc r * (pool.length : ℚ) < 1 * (pool.length : ℚ) :=
            mul_lt_mul_of_pos_right h1 hnq
        _ = (pool.length : ℚ) := one_mul _
    have h0f : 0 ≤ ⌊r * (pool.length : ℚ)⌋ :=
      Int.floor_nonneg.mpr (mul_nonneg h0 hnq.le)
    have hidx : (⌊r * (pool.length : ℚ)⌋).toNat < pool.length := by omega
    refine ⟨hidx, ?_⟩
    unfold get_next_instance randomChoice
    rw [dif_pos hidx]
  · intro i hi
    have hn : 0 < pool.length := Nat.lt_of_le_of_lt (Nat.zero_le i) hi
    have hnq : ((pool.length : ℚ)) ≠ 0 := by
      exact_mod_cast Nat.pos_iff_ne_zero.mp hn
    have hr : ((i : ℚ) / (pool.length : ℚ)) * (pool.length : ℚ) = (i : ℚ) :=
      div_mul_cancel₀ _ hnq
    have hfl : (⌊((i : ℚ) / (pool.length : ℚ)) * (pool.length : ℚ)⌋).toNat = i := by
      rw [hr, Int.floor_natCast, Int.toNat_natCast]
    unfold get_next_instance randomChoice
    rw [dif_pos (by rw [hfl]; exact hi)]
    exact congrArg (fun q => some q) (congrArg pool.get (Fin.ext hfl))

/-- C7 counterexample: on the empty pool the source's operation completes
normally with `None` — no error the caller can check — where the
specification's `selectNextInstance` fails with `EmptyPoolError`. -/
theorem c7_counterexample :
    get_next_instance ([] : List ℕ) 0 = none
    ∧ selectNextInstanceSpec ([] : List ℕ) 0 = .error PyErr.emptyPoolError := by
  constructor
  · rfl
  · rfl

/-- C7 witness: the amended theorem's uniform-reachability clause at a
three-element pool, drawing the middle element. -/
theorem c7_witness :
    get_next_instance [7, 8, 9] ((1 : ℚ) / (([7, 8, 9] : List ℕ).length : ℚ)) = some 8 :=
  (c7_get_next_instance [7, 8, 9] 0 le_rfl (by norm_num)).2.2 1 (by decide)

/-- C8: when the answer processed by an `instance_bootstrap` pass is the
reserved token `'train'`, that pass performs the forced refit
`_train()` followed by `_expectation_maximization()` on the model,
consumes no instance — the unlabeled corpus, the labeled counter `result`,
and `new_instances` are all unchanged — and the loop continues with the
next iteration rather than terminating or faulting. -/
theorem c8_train_answer {M : Type} (ctx : LoopCtx M)
    (oracle : String → List String → String) (picks : ℕ → ℕ)
    (max_iterations : Option ℕ) (fuel it result : ℕ) (st : BootState M)
    (hpick : picks it < st.unlabeled_corpus.instances.length)
    (hpred : stepPrediction ctx oracle (picks it) st = "train")
    (hguard : bootstrapGuard max_iterations it st.unlabeled_corpus.instances.length = true) :
    bootstrapStep ctx oracle (picks it) st result =
        .stepped { st with model := ctx.emFn (ctx.trainFn st.model) } result
    ∧ ({ st with model := ctx.emFn (ctx.trainFn st.model) } : BootState M).unlabeled_corpus
        = st.unlabeled_corpus
    ∧ ({ st with model := ctx.emFn (ctx.trainFn st.model) } : BootState M).new_instances
        = st.new_instances
    ∧ instanceBootstrapLoop ctx oracle picks max_iterations (fuel + 1) it result st =
        instanceBootstrapLoop ctx oracle picks max_iterations fuel (it + 1) result
          { st with model := ctx.emFn (ctx.trainFn st.model) } := by
  have hstep : bootstrapStep ctx oracle (picks it) st result =
      .stepped { st with model := ctx.emFn (ctx.trainFn st.model) } result := by
    unfold bootstrapStep
    rw [if_pos hpick, hpred]
    rw [if_neg (by decide), if_pos rfl]
  refine ⟨hstep, rfl, rfl, ?_⟩
  show (if bootstrapGuard max_iterations it st.unlabeled_corpus.instances.length = true then
      match bootstrapStep ctx oracle (picks it) st result with
      | .halted _ r => some r
      | .stepped st2 r =>
          instanceBootstrapLoop ctx oracle picks max_iterations fuel (it + 1) r st2
      | .faulted => none
    else some result) = _
  rw [if_pos hguard, hstep]

/-- C8 witness: the theorem at a concrete numeric pipeline, where the
forced refit then EM pass map the model `5` to `(5 + 1) * 2 = 12`. -/
theorem c8_witness :
    bootstrapStep bootCtx trainOracle 0 bootSt 0 =
      .stepped { bootSt with model := 12 } 0 :=
  (c8_train_answer bootCtx trainOracle (fun _ => 0) none 0 0 0 bootSt
    (by decide) rfl (by decide)).1

/-- C9 (amended): `ActivePipeline.__init__` merges its keyword options
into the process-wide mutable `default_config` dictionary in place and
stores that same dictionary as the construction's configuration, so
options passed to one construction are read by — and leak into — every
later construction's configuration. -/
theorem c9_config_leak (g : PipeConfig) (kw1 kw2 : PipeKwargs) (v : ℕ)
    (h1 : kw1 = { number_of_classes := some v })
    (h2 : kw2.number_of_classes = none) :
    activePipelineInitConfig g kw1 = (updateConfig g kw1, updateConfig g kw1)
    ∧ (activePipelineInitConfig (activePipelineInitConfig g kw1).1 kw2).2 =
        updateConfig (updateConfig g kw1) kw2
    ∧ (activePipelineInitConfig (activePipelineInitConfig g kw1).1 kw2).2.number_of_classes
        = v := by
  refine ⟨rfl, rfl, ?_⟩
  subst h1
  simp [activePipelineInitConfig, updateConfig, h2]

/-- C9 counterexample: constructing once with `number_of_classes := 3`
changes the configuration a later option-free construction receives — it
sees `3`, not the pristine default `30` it would see had the first
construction not leaked into the process-wide default. -/
theorem c9_counterexample :
    (activePipelineInitConfig
        (activePipelineInitConfig initialDefaultConfig
          { number_of_classes := some 3 }).1 {}).2 ≠
      (activePipelineInitConfig initialDefaultConfig {}).2 := by
  decide

/-- C9 witness: the amended theorem at the concrete leaked option. -/
theorem c9_witness :
    (activePipelineInitConfig
        (activePipelineInitConfig initialDefaultConfig
          { number_of_classes := some 7 }).1 {}).2.number_of_classes = 7 :=
  (c9_config_leak initialDefaultConfig { number_of_classes := some 7 } {} 7 rfl rfl).2.2

/-- C10: `SemisupervisedNB.__init__` raises `TypeError` (producing no
trainer) exactly when the estimator is not a discrete naive-Bayes
classifier — among this module's estimators, `GaussianNB` and only it —
and for a `MultinomialNB` or `BernoulliNB` estimator it succeeds, storing
exactly the given estimator, `n_iter`, `relabel_all`, `tol` and `verbose`
settings. -/
theorem c10_semisupervised_init (e : NBEstimator) (n : ℕ) (ra : Bool) (t : ℝ) (vb : Bool) :
    (e.isDiscreteNB = false → SemisupervisedNB.init e n ra t vb = .error .typeError)
    ∧ (e.isDiscreteNB = true → SemisupervisedNB.init e n ra t vb = .ok ⟨e, n, ra, t, vb⟩)
    ∧ (e.isDiscreteNB = false ↔ e = .gaussianNB) := by
  refine ⟨?_, ?_, ?_⟩
  · intro h
    unfold SemisupervisedNB.init
    rw [h]
    rfl
  · intro h
    unfold SemisupervisedNB.init
    rw [h]
    rfl
  · cases e <;> simp [NBEstimator.isDiscreteNB]

/-- C10 witness: the theorem at a `GaussianNB` estimator (rejected) and a
`MultinomialNB` estimator (accepted with the settings stored). -/
theorem c10_witness :
    SemisupervisedNB.init .gaussianNB 10 true (1 / 100000) false = .error .typeError
    ∧ SemisupervisedNB.init (.multinomialNB 1 true) 10 true (1 / 100000) false =
        .ok ⟨.multinomialNB 1 true, 10, true, 1 / 100000, false⟩ :=
  ⟨(c10_semisupervised_init .gaussianNB 10 true (1 / 100000) false).1 rfl,
   (c10_semisupervised_init (.multinomialNB 1 true) 10 true (1 / 100000) false).2.1 rfl⟩
